import Mathlib

/-!
Shallow embedding of the data-transformation core of
`src/c10m3nb2_plotly_dash.py`: the two Dash callback bodies
`update_success_chart` (spec name: `summarize`) and
`update_correlation_chart` (spec name: `correlate`), restricted to their
dataframe filter/aggregate logic (chart construction is presentation only).
A pandas DataFrame row becomes a `LaunchRecord`; the dataset is the ordered
list of rows.
-/

namespace Falcon9

/-- One row of `spacex_launch_dash.csv` as used by the callbacks:
columns `Launch Site`, `Payload Mass (kg)`, `Booster Version Category`,
`Booster Version`, `class`. -/
structure LaunchRecord where
  site : String
  payload_mass_kg : Int
  booster_category : String
  booster_version : String
  outcome_flag : Int
  deriving Repr, DecidableEq

/-- The data-model constraint on the `class` column: each flag is 0 or 1. -/
def ValidFlags (D : List LaunchRecord) : Prop :=
  ∀ r ∈ D, r.outcome_flag = 0 ∨ r.outcome_flag = 1

instance decValidFlags (D : List LaunchRecord) : Decidable (ValidFlags D) :=
  inferInstanceAs (Decidable (∀ r ∈ D, r.outcome_flag = 0 ∨ r.outcome_flag = 1))

/-- `.map({1: "Success", 0: "Failure"})` (lines 109 and 145): any other
value becomes missing (pandas NaN), hence `Option`. -/
def outcome_label (flag : Int) : Option String :=
  if flag = 1 then some "Success" else if flag = 0 then some "Failure" else none

/-- The distinct `Launch Site` values, as discovered by
`spacex_data['Launch Site'].unique()` (line 16); only its underlying set
matters below. -/
def site_set (D : List LaunchRecord) : List String :=
  (D.map (fun r => r.site)).dedup

/-- Generic insertion step: place `x` before the first element it is
`le`-below-or-equal to. -/
def insertBy {α : Type} (le : α → α → Bool) (x : α) : List α → List α
  | [] => [x]
  | y :: ys => if le x y then x :: y :: ys else y :: insertBy le x ys

/-- Insertion sort (stable for the ascending direction). -/
def sortBy {α : Type} (le : α → α → Bool) (l : List α) : List α :=
  l.foldr (insertBy le) []

/-- Group keys of a pandas `groupby` are emitted in sorted order
(`sort=True` is the default); sites are sorted lexicographically. -/
def sortSites (l : List String) : List String :=
  sortBy (fun a b => decide (a ≤ b)) l

/-- Keys of a column in first-appearance order (what the pandas hash-table
pass of `value_counts` produces before sorting). -/
def firstUniques (l : List Int) : List Int :=
  (l.reverse.dedup).reverse

/-- `Series.value_counts()` (line 107): count each distinct value, then sort
by count descending. pandas sorts by an ascending argsort followed by a
reversal, so tied counts come out in reverse first-appearance order. -/
def value_counts (l : List Int) : List (Int × Nat) :=
  (sortBy (fun p q => decide (p.2 ≤ q.2))
    ((firstUniques l).map (fun k => (k, l.count k)))).reverse

/-- One merged row of lines 93-95 for site `s`:
`groupby('Launch Site')['class'].sum()` gives the success total and
`groupby('Launch Site').size()` the row count; the `merge` on
`'Launch Site'` pairs the two per-site values. -/
def groupSummary (D : List LaunchRecord) (s : String) : String × Int × Nat :=
  let rows := D.filter (fun r => r.site == s)
  (s, (rows.map (fun r => r.outcome_flag)).sum, rows.length)

/-- The `selected_site == 'ALL'` branch (lines 91-95): both groupbys list
the same sorted distinct sites, so the merge yields one row per distinct
site in that order. -/
def summarizeAll (D : List LaunchRecord) : List (String × Int × Nat) :=
  (sortSites (site_set D)).map (groupSummary D)

/-- The specific-site branch (lines 104-109): restrict to the site, count
rows per `class` value, relabel `1 -> "Success"`, `0 -> "Failure"`. -/
def summarizeSite (D : List LaunchRecord) (s : String) : List (Option String × Nat) :=
  let site_data := D.filter (fun r => r.site == s)
  (value_counts (site_data.map (fun r => r.outcome_flag))).map
    (fun p => (outcome_label p.1, p.2))

/-- The spec's tagged union for the result of `summarize`. -/
inductive SiteSummaryResult where
  | ByCategory : List (String × Int × Nat) → SiteSummaryResult
  | ByOutcome : List (Option String × Nat) → SiteSummaryResult
  deriving Repr, DecidableEq

/-- `update_success_chart` (line 90), data part. -/
def summarize (D : List LaunchRecord) (s : String) : SiteSummaryResult :=
  if s == "ALL" then SiteSummaryResult.ByCategory (summarizeAll D)
  else SiteSummaryResult.ByOutcome (summarizeSite D s)

/-- The payload-range predicate of lines 136-137 (inclusive both ends). -/
def inRange (a b : Int) (r : LaunchRecord) : Bool :=
  decide (a ≤ r.payload_mass_kg) && decide (r.payload_mass_kg ≤ b)

/-- `update_correlation_chart` (line 133), data part: filter by payload
range, filter by site unless "ALL", attach the outcome label. The label
assignment on line 145 writes to `filtered_data`, a fresh frame produced
by boolean indexing, never to `spacex_data`. -/
def correlate (D : List LaunchRecord) (s : String) (a b : Int) :
    List (LaunchRecord × Option String) :=
  let filtered := D.filter (inRange a b)
  let filtered2 := if s == "ALL" then filtered else filtered.filter (fun r => r.site == s)
  filtered2.map (fun r => (r, outcome_label r.outcome_flag))

/-- State-passing form of `update_success_chart`: the module-level
`spacex_data` is the state; the callback only reads it, so the post-state
is built by threading the dataset through each statement unchanged. -/
def summarizeProc (st : List LaunchRecord) (s : String) :
    List LaunchRecord × SiteSummaryResult :=
  (st, summarize st s)

/-- State-passing form of `update_correlation_chart`; the only assignment
in the body (line 145) targets the derived copy `filtered_data`. -/
def correlateProc (st : List LaunchRecord) (s : String) (a b : Int) :
    List LaunchRecord × List (LaunchRecord × Option String) :=
  (st, correlate st s a b)

/-- The three-row example dataset from the spec (section 8). -/
def Dex : List LaunchRecord :=
  [⟨"A", 2000, "v1", "F9 v1.0 B0003", 1⟩,
   ⟨"A", 9000, "v2", "F9 v1.1 B1011", 0⟩,
   ⟨"B", 500, "v1", "F9 v1.0 B0005", 1⟩]

theorem insertBy_perm {α : Type} (le : α → α → Bool) (x : α) :
    ∀ l : List α, List.Perm (insertBy le x l) (x :: l)
  | [] => List.Perm.refl _
  | y :: ys => by
    rw [insertBy]
    by_cases h : le x y = true
    · rw [if_pos h]
    · rw [if_neg h]
      exact ((insertBy_perm le x ys).cons y).trans (List.Perm.swap x y ys)

theorem sortBy_perm {α : Type} (le : α → α → Bool) :
    ∀ l : List α, List.Perm (sortBy le l) l
  | [] => List.Perm.refl _
  | x :: xs => by
    rw [sortBy, List.foldr_cons]
    exact (insertBy_perm le x _).trans ((sortBy_perm le xs).cons x)

theorem sortSites_perm (l : List String) : List.Perm (sortSites l) l :=
  sortBy_perm _ l

theorem value_counts_perm (l : List Int) :
    List.Perm (value_counts l) ((firstUniques l).map (fun k => (k, l.count k))) :=
  (List.reverse_perm _).trans (sortBy_perm _ _)

theorem firstUniques_nodup (l : List Int) : (firstUniques l).Nodup :=
  List.nodup_reverse.mpr (List.nodup_dedup _)

theorem mem_firstUniques {l : List Int} {x : Int} : x ∈ firstUniques l ↔ x ∈ l := by
  rw [firstUniques, List.mem_reverse, List.mem_dedup, List.mem_reverse]

theorem sum_filter_split {α : Type} (f : α → Int) (p : α → Bool) :
    ∀ l : List α,
      ((l.filter p).map f).sum + ((l.filter (fun x => !p x)).map f).sum = (l.map f).sum
  | [] => by simp
  | x :: xs => by
    have ih := sum_filter_split f p xs
    cases h : p x <;> simp [List.filter_cons, h, ← ih] <;> ring

theorem length_filter_split {α : Type} (p : α → Bool) :
    ∀ l : List α, (l.filter p).length + (l.filter (fun x => !p x)).length = l.length
  | [] => by simp
  | x :: xs => by
    have ih := length_filter_split p xs
    cases h : p x <;> simp [List.filter_cons, h, ← ih] <;> omega

theorem partition_sum {α κ : Type} [BEq κ] [LawfulBEq κ] (f : α → Int) (key : α → κ) :
    ∀ (keys : List κ) (l : List α), keys.Nodup → (∀ x ∈ l, key x ∈ keys) →
      (keys.map (fun k => ((l.filter (fun x => key x == k)).map f).sum)).sum
        = (l.map f).sum
  | [], l, _, hcov => by
    have hl : l = [] := by
      cases l with
      | nil => rfl
      | cons x xs => exact absurd (hcov x (List.mem_cons_self x xs)) (List.not_mem_nil _)
    subst hl; simp
  | k :: ks, l, hnd, hcov => by
    have hk : k ∉ ks := (List.nodup_cons.mp hnd).1
    have hnd' : ks.Nodup := (List.nodup_cons.mp hnd).2
    have hfilt : ∀ k' ∈ ks,
        l.filter (fun x => key x == k') =
          (l.filter (fun x => !(key x == k))).filter (fun x => key x == k') := by
      intro k' hk'
      rw [List.filter_filter]
      refine (List.filter_congr ?_).symm
      intro x _
      cases heq : key x == k' with
      | false => simp
      | true =>
        have hxk' : key x = k' := eq_of_beq heq
        have hne : ¬(key x == k) = true := by
          simp only [beq_iff_eq, hxk']
          intro hcontra
          exact hk (hcontra ▸ hk')
        simp [Bool.not_eq_true] at hne ⊢
        simp [hne]
    have hcov' : ∀ x ∈ l.filter (fun x => !(key x == k)), key x ∈ ks := by
      intro x hx
      rw [List.mem_filter] at hx
      have := hcov x hx.1
      rw [List.mem_cons] at this
      rcases this with h1 | h2
      · exact absurd (beq_iff_eq.mpr h1) (by simpa using hx.2)
      · exact h2
    have hmapeq :
        ks.map (fun s => ((l.filter (fun x => key x == s)).map f).sum) =
          ks.map (fun s =>
            (((l.filter (fun x => !(key x == k))).filter (fun x => key x == s)).map f).sum) :=
      List.map_congr_left (fun s hs => by rw [hfilt s hs])
    rw [List.map_cons, List.sum_cons, hmapeq,
      partition_sum f key ks (l.filter (fun x => !(key x == k))) hnd' hcov']
    exact sum_filter_split f (fun x => key x == k) l

theorem partition_length {α κ : Type} [BEq κ] [LawfulBEq κ] (key : α → κ) :
    ∀ (keys : List κ) (l : List α), keys.Nodup → (∀ x ∈ l, key x ∈ keys) →
      (keys.map (fun k => (l.filter (fun x => key x == k)).length)).sum = l.length
  | [], l, _, hcov => by
    have hl : l = [] := by
      cases l with
      | nil => rfl
      | cons x xs => exact absurd (hcov x (List.mem_cons_self x xs)) (List.not_mem_nil _)
    subst hl; simp
  | k :: ks, l, hnd, hcov => by
    have hk : k ∉ ks := (List.nodup_cons.mp hnd).1
    have hnd' : ks.Nodup := (List.nodup_cons.mp hnd).2
    have hfilt : ∀ k' ∈ ks,
        l.filter (fun x => key x == k') =
          (l.filter (fun x => !(key x == k))).filter (fun x => key x == k') := by
      intro k' hk'
      rw [List.filter_filter]
      refine (List.filter_congr ?_).symm
      intro x _
      cases heq : key x == k' with
      | false => simp
      | true =>
        have hxk' : key x = k' := eq_of_beq heq
        have hne : ¬(key x == k) = true := by
          simp only [beq_iff_eq, hxk']
          intro hcontra
          exact hk (hcontra ▸ hk')
        simp [Bool.not_eq_true] at hne ⊢
        simp [hne]
    have hcov' : ∀ x ∈ l.filter (fun x => !(key x == k)), key x ∈ ks := by
      intro x hx
      rw [List.mem_filter] at hx
      have := hcov x hx.1
      rw [List.mem_cons] at this
      rcases this with h1 | h2
      · exact absurd (beq_iff_eq.mpr h1) (by simpa using hx.2)
      · exact h2
    have hmapeq :
        ks.map (fun s => (l.filter (fun x => key x == s)).length) =
          ks.map (fun s =>
            ((l.filter (fun x => !(key x == k))).filter (fun x => key x == s)).length) :=
      List.map_congr_left (fun s hs => by rw [hfilt s hs])
    rw [List.map_cons, List.sum_cons, hmapeq,
      partition_length key ks (l.filter (fun x => !(key x == k))) hnd' hcov']
    exact length_filter_split (fun x => key x == k) l

theorem value_counts_sum (l : List Int) :
    ((value_counts l).map (fun p => p.2)).sum = l.length := by
  rw [((value_counts_perm l).map (fun p : Int × Nat => p.2)).sum_eq, List.map_map]
  have hcongr :
      (firstUniques l).map ((fun p : Int × Nat => p.2) ∘ fun k => (k, l.count k)) =
        (firstUniques l).map (fun k => (l.filter (fun x => x == k)).length) :=
    List.map_congr_left (fun k _ => by
      simp [Function.comp, List.count_eq_countP, List.countP_eq_length_filter])
  rw [hcongr]
  exact partition_length (fun x : Int => x) (firstUniques l) l (firstUniques_nodup l)
    (fun x hx => mem_firstUniques.mpr hx)

theorem value_counts_mem {l : List Int} {p : Int × Nat} (hp : p ∈ value_counts l) :
    p.1 ∈ l ∧ p.2 = l.count p.1 := by
  have hmem := (value_counts_perm l).mem_iff.mp hp
  obtain ⟨k, hk, rfl⟩ := List.mem_map.mp hmem
  exact ⟨mem_firstUniques.mp hk, rfl⟩

theorem sum_flags_eq_countP :
    ∀ l : List LaunchRecord, (∀ r ∈ l, r.outcome_flag = 0 ∨ r.outcome_flag = 1) →
      (l.map (fun r => r.outcome_flag)).sum
        = (l.countP (fun r => r.outcome_flag == 1) : Int)
  | [], _ => by simp
  | r :: rs, h => by
    have ih := sum_flags_eq_countP rs (fun x hx => h x (List.mem_cons_of_mem r hx))
    rcases h r (List.mem_cons_self r rs) with hf | hf
    · simp [List.countP_cons, hf, ih]
    · simp only [List.map_cons, List.sum_cons, List.countP_cons, hf, ih]
      norm_num
      ring

theorem sum_flags_bounds :
    ∀ l : List LaunchRecord, (∀ r ∈ l, r.outcome_flag = 0 ∨ r.outcome_flag = 1) →
      0 ≤ (l.map (fun r => r.outcome_flag)).sum ∧
        (l.map (fun r => r.outcome_flag)).sum ≤ (l.length : Int)
  | [], _ => by simp
  | r :: rs, h => by
    have ih := sum_flags_bounds rs (fun x hx => h x (List.mem_cons_of_mem r hx))
    rcases h r (List.mem_cons_self r rs) with hf | hf <;>
      simp only [List.map_cons, List.sum_cons, List.length_cons, hf] <;>
      push_cast <;> omega

theorem summarizeAll_map_fst (D : List LaunchRecord) :
    (summarizeAll D).map (fun e => e.1) = sortSites (site_set D) := by
  rw [summarizeAll, List.map_map]
  exact (List.map_congr_left (fun s _ => rfl)).trans (List.map_id _)

theorem sites_nodup (D : List LaunchRecord) : (sortSites (site_set D)).Nodup :=
  (sortSites_perm _).nodup_iff.mpr (List.nodup_dedup _)

theorem mem_sites {D : List LaunchRecord} {s : String} :
    s ∈ sortSites (site_set D) ↔ ∃ r ∈ D, r.site = s := by
  rw [(sortSites_perm _).mem_iff, site_set, List.mem_dedup, List.mem_map]

theorem cover_sites (D : List LaunchRecord) :
    ∀ r ∈ D, r.site ∈ sortSites (site_set D) :=
  fun r hr => mem_sites.mpr ⟨r, hr, rfl⟩

/-- C1: for a ≤ b, every row returned by `correlate D s a b` has
`payload_mass_kg` between a and b inclusive, and has site s whenever s is
not the sentinel "ALL". -/
theorem correlate_rows_in_range (D : List LaunchRecord) (s : String) (a b : Int)
    (hab : a ≤ b) :
    ∀ p ∈ correlate D s a b,
      (a ≤ p.1.payload_mass_kg ∧ p.1.payload_mass_kg ≤ b) ∧
        (s = "ALL" ∨ p.1.site = s) := by
  intro p hp
  simp only [correlate] at hp
  obtain ⟨r, hr, rfl⟩ := List.mem_map.mp hp
  by_cases hs : s = "ALL"
  · rw [if_pos (by simp [hs])] at hr
    exact ⟨by simpa [inRange] using (List.mem_filter.mp hr).2, Or.inl hs⟩
  · rw [if_neg (by simp [hs])] at hr
    have h1 := List.mem_filter.mp hr
    have h2 := List.mem_filter.mp h1.1
    exact ⟨by simpa [inRange] using h2.2, Or.inr (by simpa using h1.2)⟩

/-- Witness for C1 at the spec's example dataset with range [0, 3000]. -/
theorem correlate_rows_in_range_witness :
    (0 : Int) ≤ 3000 ∧
      ∀ p ∈ correlate Dex "ALL" 0 3000,
        ((0 : Int) ≤ p.1.payload_mass_kg ∧ p.1.payload_mass_kg ≤ 3000) ∧
          ("ALL" = "ALL" ∨ p.1.site = "ALL") :=
  ⟨by decide, correlate_rows_in_range Dex "ALL" 0 3000 (by decide)⟩

/-- C2: the success totals of `summarize D "ALL"` sum to the number of rows
of D whose outcome flag is 1, for any dataset satisfying the data model's
flag constraint. -/
theorem summarizeAll_success_total_sum (D : List LaunchRecord) (h : ValidFlags D) :
    ((summarizeAll D).map (fun e => e.2.1)).sum
      = (D.countP (fun r => r.outcome_flag == 1) : Int) := by
  rw [summarizeAll, List.map_map]
  have hcomp :
      (sortSites (site_set D)).map
          ((fun e : String × Int × Nat => e.2.1) ∘ groupSummary D)
        = (sortSites (site_set D)).map (fun s =>
            ((D.filter (fun r => r.site == s)).map (fun r => r.outcome_flag)).sum) :=
    List.map_congr_left (fun s _ => rfl)
  have hpart := partition_sum (fun r : LaunchRecord => r.outcome_flag)
    (fun r : LaunchRecord => r.site) (sortSites (site_set D)) D
    (sites_nodup D) (cover_sites D)
  simp only at hpart
  rw [hcomp, hpart]
  exact sum_flags_eq_countP D h

/-- Witness for C2 at the spec's example dataset. -/
theorem summarizeAll_success_total_sum_witness :
    ValidFlags Dex ∧
      ((summarizeAll Dex).map (fun e => e.2.1)).sum
        = (Dex.countP (fun r => r.outcome_flag == 1) : Int) :=
  ⟨by decide, summarizeAll_success_total_sum Dex (by decide)⟩

/-- C3: for a site s of the dataset, `summarizeSite D s` contains only
Success/Failure labels, never a zero count, and its counts sum to the
number of rows of D with that site. -/
theorem summarizeSite_labels_and_counts (D : List LaunchRecord) (s : String)
    (hs : s ∈ site_set D) (h : ValidFlags D) :
    (∀ p ∈ summarizeSite D s,
        (p.1 = some "Success" ∨ p.1 = some "Failure") ∧ 0 < p.2) ∧
      ((summarizeSite D s).map (fun p => p.2)).sum
        = (D.filter (fun r => r.site == s)).length := by
  constructor
  · intro p hp
    simp only [summarizeSite] at hp
    obtain ⟨q, hq, rfl⟩ := List.mem_map.mp hp
    obtain ⟨hk, hc⟩ := value_counts_mem hq
    obtain ⟨r, hr, hflag⟩ := List.mem_map.mp hk
    have hrD : r ∈ D := (List.mem_filter.mp hr).1
    refine ⟨?_, by rw [hc]; exact List.count_pos_iff.mpr hk⟩
    rcases h r hrD with h0 | h1
    · right
      simp [outcome_label, ← hflag, h0]
    · left
      simp [outcome_label, ← hflag, h1]
  · simp only [summarizeSite, List.map_map]
    have hcomp :
        (value_counts ((D.filter (fun r => r.site == s)).map (fun r => r.outcome_flag))).map
            ((fun p : Option String × Nat => p.2) ∘ fun p => (outcome_label p.1, p.2))
          = (value_counts ((D.filter (fun r => r.site == s)).map
              (fun r => r.outcome_flag))).map (fun p => p.2) :=
      List.map_congr_left (fun q _ => rfl)
    rw [hcomp, value_counts_sum, List.length_map]

/-- Witness for C3 at the spec's example dataset and site "A". -/
theorem summarizeSite_labels_and_counts_witness :
    "A" ∈ site_set Dex ∧ ValidFlags Dex ∧
      ((∀ p ∈ summarizeSite Dex "A",
          (p.1 = some "Success" ∨ p.1 = some "Failure") ∧ 0 < p.2) ∧
        ((summarizeSite Dex "A").map (fun p => p.2)).sum
          = (Dex.filter (fun r => r.site == "A")).length) :=
  ⟨by decide, by decide, summarizeSite_labels_and_counts Dex "A" (by decide) (by decide)⟩

/-- C4: an inverted range (a > b) makes `correlate` return the empty list
rather than fail. -/
theorem correlate_inverted_range_empty (D : List LaunchRecord) (s : String)
    (a b : Int) (hba : b < a) : correlate D s a b = [] := by
  have hnil : D.filter (inRange a b) = [] := by
    rw [List.filter_eq_nil_iff]
    intro r hr
    simp only [inRange, Bool.and_eq_true, decide_eq_true_eq]
    omega
  simp [correlate, hnil, ite_self]

/-- Witness for C4 at the spec's example dataset with range [3000, 500]. -/
theorem correlate_inverted_range_empty_witness :
    (500 : Int) < 3000 ∧ correlate Dex "A" 3000 500 = [] :=
  ⟨by decide, correlate_inverted_range_empty Dex "A" 3000 500 (by decide)⟩

/-- C5: a selected site that is neither "ALL" nor a member of the dataset's
site set yields the empty ByOutcome result, not an error. -/
theorem summarize_unknown_site_empty (D : List LaunchRecord) (s : String)
    (hall : s ≠ "ALL") (hmem : s ∉ site_set D) :
    summarize D s = SiteSummaryResult.ByOutcome [] := by
  rw [summarize, if_neg (by simpa using hall)]
  have hnil : D.filter (fun r => r.site == s) = [] := by
    rw [List.filter_eq_nil_iff]
    intro r hr hsite
    exact hmem (by
      rw [site_set, List.mem_dedup]
      exact List.mem_map.mpr ⟨r, hr, eq_of_beq hsite⟩)
  simp only [summarizeSite, hnil]
  rfl

/-- Witness for C5 at the spec's example dataset and the unknown site "C". -/
theorem summarize_unknown_site_empty_witness :
    "C" ≠ "ALL" ∧ "C" ∉ site_set Dex ∧
      summarize Dex "C" = SiteSummaryResult.ByOutcome [] :=
  ⟨by decide, by decide, summarize_unknown_site_empty Dex "C" (by decide) (by decide)⟩

/-- C6: neither transform mutates the dataset: the state-passing forms of
both callbacks return the dataset unchanged alongside their result. -/
theorem transforms_do_not_mutate (D : List LaunchRecord) (s : String) (a b : Int) :
    (summarizeProc D s).1 = D ∧ (correlateProc D s a b).1 = D :=
  ⟨rfl, rfl⟩

/-- C7: for a ≤ b the rows of `correlate D s a b` are, in order, exactly the
surviving rows of D: the underlying record list is the stable filter of D,
hence a sublist of D with no reordering. -/
theorem correlate_stable_filter (D : List LaunchRecord) (s : String) (a b : Int)
    (hab : a ≤ b) :
    List.Sublist ((correlate D s a b).map (fun p => p.1)) D ∧
      (correlate D s a b).map (fun p => p.1)
        = D.filter (fun r => inRange a b r && (s == "ALL" || r.site == s)) := by
  have hfst : (correlate D s a b).map (fun p => p.1)
      = if s == "ALL" then D.filter (inRange a b)
        else (D.filter (inRange a b)).filter (fun r => r.site == s) := by
    simp only [correlate, List.map_map]
    have hid : ((fun p : LaunchRecord × Option String => p.1)
        ∘ fun r => (r, outcome_label r.outcome_flag)) = id := rfl
    rw [hid, List.map_id]
  constructor
  · rw [hfst]
    by_cases hs : s = "ALL"
    · rw [if_pos (by simp [hs])]
      exact List.filter_sublist D
    · rw [if_neg (by simp [hs])]
      exact (List.filter_sublist _).trans (List.filter_sublist D)
  · rw [hfst]
    by_cases hs : s = "ALL"
    · rw [if_pos (by simp [hs])]
      refine List.filter_congr ?_
      intro r _
      simp [hs]
    · rw [if_neg (by simp [hs]), List.filter_filter]
      refine List.filter_congr ?_
      intro r _
      have hsf : (s == "ALL") = false := beq_eq_false_iff_ne.mpr hs
      rw [hsf]
      simp [Bool.and_comm]

/-- Witness for C7 at the spec's example dataset with range [0, 3000]. -/
theorem correlate_stable_filter_witness :
    (0 : Int) ≤ 3000 ∧
      (List.Sublist ((correlate Dex "A" 0 3000).map (fun p => p.1)) Dex ∧
        (correlate Dex "A" 0 3000).map (fun p => p.1)
          = Dex.filter (fun r => inRange 0 3000 r && ("A" == "ALL" || r.site == "A"))) :=
  ⟨by decide, correlate_stable_filter Dex "A" 0 3000 (by decide)⟩

/-- C8: `summarize D "ALL"` emits exactly one tuple per distinct site of D
(no site repeated, a site appears iff it occurs in D), each tuple carrying
that site's flag sum and row count, and the output is stable: re-running
the callback on the unchanged dataset state reproduces it. -/
theorem summarizeAll_one_tuple_per_site (D : List LaunchRecord) :
    ((summarizeAll D).map (fun e => e.1)).Nodup ∧
      (∀ e ∈ summarizeAll D,
        e.2.1 = ((D.filter (fun r => r.site == e.1)).map (fun r => r.outcome_flag)).sum ∧
        e.2.2 = (D.filter (fun r => r.site == e.1)).length) ∧
      (∀ s, (∃ e ∈ summarizeAll D, e.1 = s) ↔ ∃ r ∈ D, r.site = s) ∧
      summarize ((summarizeProc D "ALL").1) "ALL" = summarize D "ALL" := by
  refine ⟨?_, ?_, ?_, rfl⟩
  · rw [summarizeAll_map_fst]
    exact sites_nodup D
  · intro e he
    simp only [summarizeAll] at he
    obtain ⟨t, ht, rfl⟩ := List.mem_map.mp he
    exact ⟨rfl, rfl⟩
  · intro s
    constructor
    · rintro ⟨e, he, rfl⟩
      simp only [summarizeAll] at he
      obtain ⟨t, ht, rfl⟩ := List.mem_map.mp he
      exact mem_sites.mp ht
    · rintro ⟨r, hr, rfl⟩
      exact ⟨groupSummary D r.site,
        List.mem_map.mpr ⟨r.site, cover_sites D r hr, rfl⟩, rfl⟩

/-- C9: on the spec's three-row example dataset, `summarize Dex "A"` is
exactly [("Failure", 1), ("Success", 1)] in that order. -/
theorem summarize_example_site_A :
    summarize Dex "A"
      = SiteSummaryResult.ByOutcome [(some "Failure", 1), (some "Success", 1)] := by
  decide

/-- C10: for flag-valid datasets, every tuple of `summarize D "ALL"` has
0 ≤ success_total ≤ record_total, record_total ≥ 1, and no site appears in
more than one tuple. -/
theorem summarizeAll_totals_invariant (D : List LaunchRecord) (h : ValidFlags D) :
    (∀ e ∈ summarizeAll D,
        0 ≤ e.2.1 ∧ e.2.1 ≤ (e.2.2 : Int) ∧ 1 ≤ e.2.2) ∧
      ((summarizeAll D).map (fun e => e.1)).Nodup := by
  constructor
  · intro e he
    simp only [summarizeAll] at he
    obtain ⟨s, hs, rfl⟩ := List.mem_map.mp he
    have hsub : ∀ r ∈ D.filter (fun r => r.site == s),
        r.outcome_flag = 0 ∨ r.outcome_flag = 1 :=
      fun r hr => h r (List.mem_filter.mp hr).1
    have hb := sum_flags_bounds _ hsub
    refine ⟨hb.1, hb.2, ?_⟩
    obtain ⟨r, hr, hrs⟩ := mem_sites.mp hs
    have hrf : r ∈ D.filter (fun r => r.site == s) :=
      List.mem_filter.mpr ⟨hr, beq_iff_eq.mpr hrs⟩
    exact List.length_pos.mpr (List.ne_nil_of_mem hrf)
  · rw [summarizeAll_map_fst]
    exact sites_nodup D

/-- Witness for C10 at the spec's example dataset. -/
theorem summarizeAll_totals_invariant_witness :
    ValidFlags Dex ∧
      ((∀ e ∈ summarizeAll Dex,
          0 ≤ e.2.1 ∧ e.2.1 ≤ (e.2.2 : Int) ∧ 1 ≤ e.2.2) ∧
        ((summarizeAll Dex).map (fun e => e.1)).Nodup) :=
  ⟨by decide, summarizeAll_totals_invariant Dex (by decide)⟩

end Falcon9
